import Mathlib

/-!
Verification of the dropbox-sync program (src/sync.py).

The Python source is shallowly embedded below: strings are lists of
characters (`Str`), bytes are natural numbers, the interactive input
stream is a list of answer strings, and the walk over the local tree is
a fold over an explicit tree value.  Uncaught Python exceptions are
modelled by the control value `Ctl.err`, `sys.exit(n)` / `SystemExit(n)`
by `Ctl.exitc n`.
-/

set_option maxHeartbeats 1000000
set_option linter.unusedVariables false

abbrev Str := List Char

/-- Python `name.startswith(pre)`. -/
def startswith (s pre : Str) : Bool := List.isPrefixOf pre s

/-- Python `name.endswith(suf)`. -/
def endswith (s suf : Str) : Bool := List.isSuffixOf suf s

/-- Whitespace characters stripped by Python `str.strip()`. -/
def pySpace (c : Char) : Bool :=
  c == ' ' || c == '\t' || c == '\n' || c == '\r' || c == '\x0b' || c == '\x0c'

/-- Python `s.strip()`. -/
def stripStr (s : Str) : Str :=
  ((s.dropWhile pySpace).reverse.dropWhile pySpace).reverse

/-- Python `s.lower()`. -/
def toLowerStr (s : Str) : Str := s.map Char.toLower

/-! ## SHA-256 over byte lists (bytes are `Nat`, reduced mod 2^8 on output) -/

/-- Truncation to a 32-bit word. -/
def w32 (n : Nat) : Nat := n % 4294967296

/-- 32-bit right rotation. -/
def rotr (k x : Nat) : Nat := w32 (Nat.lor (x >>> k) (x <<< (32 - k)))

def bsig0 (x : Nat) : Nat := Nat.xor (rotr 2 x) (Nat.xor (rotr 13 x) (rotr 22 x))

def bsig1 (x : Nat) : Nat := Nat.xor (rotr 6 x) (Nat.xor (rotr 11 x) (rotr 25 x))

def ssig0 (x : Nat) : Nat := Nat.xor (rotr 7 x) (Nat.xor (rotr 18 x) (x >>> 3))

def ssig1 (x : Nat) : Nat := Nat.xor (rotr 17 x) (Nat.xor (rotr 19 x) (x >>> 10))

def chf (x y z : Nat) : Nat := Nat.xor (Nat.land x y) (Nat.land (Nat.xor x 4294967295) z)

def majf (x y z : Nat) : Nat := Nat.xor (Nat.land x y) (Nat.xor (Nat.land x z) (Nat.land y z))

def sha256K : List Nat :=
  [1116352408, 1899447441, 3049323471, 3921009573, 961987163,
   1508970993, 2453635748, 2870763221, 3624381080, 310598401,
   607225278, 1426881987, 1925078388, 2162078206, 2614888103,
   3248222580, 3835390401, 4022224774, 264347078, 604807628,
   770255983, 1249150122, 1555081692, 1996064986, 2554220882,
   2821834349, 2952996808, 3210313671, 3336571891, 3584528711,
   113926993, 338241895, 666307205, 773529912, 1294757372,
   1396182291, 1695183700, 1986661051, 2177026350, 2456956037,
   2730485921, 2820302411, 3259730800, 3345764771, 3516065817,
   3600352804, 4094571909, 275423344, 430227734, 506948616,
   659060556, 883997877, 958139571, 1322822218, 1537002063,
   1747873779, 1955562222, 2024104815, 2227730452, 2361852424,
   2428436474, 2756734187, 3204031479, 3329325298]
def sha256H0 : List Nat :=
  [1779033703, 3144134277, 1013904242, 2773480762, 1359893119,
   2600822924, 528734635, 1541459225]

/-- Big-endian byte encoding of `n` on `k` bytes. -/
def natToBytesBE : Nat → Nat → List Nat
  | 0, _ => []
  | k + 1, n => natToBytesBE k (n / 256) ++ [n % 256]

/-- Groups of four bytes, big-endian, to 32-bit words. -/
def bytesToWords : List Nat → List Nat
  | b0 :: b1 :: b2 :: b3 :: rest =>
    (((b0 * 256 + b1) * 256 + b2) * 256 + b3) :: bytesToWords rest
  | _ => []

/-- SHA-256 padding: a 0x80 byte, zeros, then the 64-bit bit length. -/
def padMessage (msg : List Nat) : List Nat :=
  let l := msg.length
  let zeros := (64 + 56 - ((l + 1) % 64)) % 64
  msg ++ 128 :: List.replicate zeros 0 ++ natToBytesBE 8 (8 * l)

/-- Splits a list into consecutive chunks of size `k + 1`; the final chunk
may be shorter, and an empty list yields no chunks. -/
def chunksOfPos (k : Nat) : List α → List (List α)
  | [] => []
  | a :: rest => (a :: rest).take (k + 1) :: chunksOfPos k ((a :: rest).drop (k + 1))
termination_by l => l.length
decreasing_by
  simp only [List.drop_succ_cons, List.length_drop, List.length_cons]
  omega

/-- Extends a 16-word schedule by `t` further words. -/
def sched48 : Nat → List Nat → List Nat
  | 0, ws => ws
  | t + 1, ws =>
    let l := ws.length
    let nw := w32 (ssig1 (ws.getD (l - 2) 0) + ws.getD (l - 7) 0 +
                   ssig0 (ws.getD (l - 15) 0) + ws.getD (l - 16) 0)
    sched48 t (ws ++ [nw])

/-- One SHA-256 round on the eight-word working state. -/
def roundStep (st : List Nat) (wk : Nat × Nat) : List Nat :=
  match st with
  | [a, b, c, d, e, f, g, h] =>
    let t1 := w32 (h + bsig1 e + chf e f g + wk.2 + wk.1)
    let t2 := w32 (bsig0 a + majf a b c)
    [w32 (t1 + t2), a, b, c, w32 (d + t1), e, f, g]
  | other => other

/-- Compression of one 64-byte block into the hash state. -/
def compressBlock (h : List Nat) (block : List Nat) : List Nat :=
  let ws := sched48 48 (bytesToWords block)
  let st := (List.zip ws sha256K).foldl roundStep h
  (List.zip h st).map (fun p => w32 (p.1 + p.2))

/-- SHA-256 digest (32 bytes) of a byte list. -/
def sha256 (msg : List Nat) : List Nat :=
  let hs := (chunksOfPos 63 (padMessage msg)).foldl compressBlock sha256H0
  (hs.map (natToBytesBE 4)).flatten

def hexChar (n : Nat) : Char := Char.ofNat (if n < 10 then 48 + n else 87 + n)

/-- Lowercase hexadecimal rendering of a byte list. -/
def toHex (bs : List Nat) : Str :=
  (bs.map (fun b => [hexChar (b / 16), hexChar (b % 16)])).flatten

/-! ## Dropbox content hasher

Modelled from the spec: the `DropboxContentHasher` class imported by
src/sync.py from `dropbox_content_hasher` is not under src/.  Following
the spec, the stream is partitioned into 4 MiB blocks (the final block
may be shorter), each block is SHA-256 hashed in order, the raw digests
are concatenated, and the hex SHA-256 of that buffer is the content
hash.  The hasher below is streaming: it keeps one open block
accumulator (`pending`, always shorter than a block) plus the digest
bytes of the blocks already closed. -/

def BLOCK_SIZE : Nat := 4 * 1024 * 1024

structure DropboxContentHasher where
  digestAcc : List Nat
  pending : List Nat
deriving DecidableEq

/-- Closes every full 4 MiB block in `pend`, appending each block digest. -/
def flushBlocks (acc pend : List Nat) : List Nat × List Nat :=
  if h : BLOCK_SIZE ≤ pend.length then
    flushBlocks (acc ++ sha256 (pend.take BLOCK_SIZE)) (pend.drop BLOCK_SIZE)
  else (acc, pend)
termination_by pend.length
decreasing_by
  simp only [List.length_drop]
  have hb : 0 < BLOCK_SIZE := by decide
  omega

/-- `hasher.update(chunk)`: bytes are appended to the open block
accumulator and every block that fills is closed. -/
def hUpdate (h : DropboxContentHasher) (chunk : List Nat) : DropboxContentHasher :=
  let fp := flushBlocks h.digestAcc (h.pending ++ chunk)
  ⟨fp.1, fp.2⟩

def hasherInit : DropboxContentHasher := ⟨[], []⟩

/-- `hasher.hexdigest()`: a non-empty open block is closed, and the hex
SHA-256 of the concatenated block digests is returned. -/
def hexdigest (h : DropboxContentHasher) : Str :=
  toHex (sha256 (h.digestAcc ++ (if h.pending = [] then [] else sha256 h.pending)))

/-- Feeding a sequence of I/O read chunks to a fresh hasher. -/
def dropboxHashChunks (chunks : List (List Nat)) : Str :=
  hexdigest (chunks.foldl hUpdate hasherInit)

/-- src/sync.py `dropbox_hash`: the file is read in 1024-byte chunks and
fed to a fresh `DropboxContentHasher`. -/
def dropbox_hash (data : List Nat) : Str :=
  dropboxHashChunks (chunksOfPos 1023 data)

/-- The 4 MiB block decomposition of a byte stream (final block shorter). -/
def blocksOf (l : List Nat) : List (List Nat) := chunksOfPos (BLOCK_SIZE - 1) l

/-- The spec's closed formula for the content hash. -/
def dropboxSpecHash (data : List Nat) : Str :=
  toHex (sha256 (((blocksOf data).map sha256).flatten))

/-- The full (exactly 4 MiB) blocks at the front of a stream. -/
def fullPart (l : List Nat) : List (List Nat) :=
  if h : BLOCK_SIZE ≤ l.length then l.take BLOCK_SIZE :: fullPart (l.drop BLOCK_SIZE) else []
termination_by l.length
decreasing_by
  simp only [List.length_drop]
  have hb : 0 < BLOCK_SIZE := by decide
  omega

/-- The remaining partial block after all full blocks. -/
def restPart (l : List Nat) : List Nat :=
  if h : BLOCK_SIZE ≤ l.length then restPart (l.drop BLOCK_SIZE) else l
termination_by l.length
decreasing_by
  simp only [List.length_drop]
  have hb : 0 < BLOCK_SIZE := by decide
  omega

/-! ## Remote path construction (src/sync.py lines 129-132, 150-152, 168-170) -/

/-- Python `subdirectory.replace(os.path.sep, '/')` for a one-character
separator. -/
def replaceSep (sep : Char) (s : Str) : Str :=
  s.map (fun c => if c = sep then '/' else c)

/-- Python `'//' in path`. -/
def hasDD : Str → Bool
  | [] => false
  | [_] => false
  | c1 :: c2 :: rest => (c1 == '/' && c2 == '/') || hasDD (c2 :: rest)

/-- Python `path.replace('//', '/')`: one left-to-right non-overlapping
replacement pass. -/
def replaceDD : Str → Str
  | [] => []
  | [c] => [c]
  | c1 :: c2 :: rest =>
    if c1 == '/' && c2 == '/' then '/' :: replaceDD rest
    else c1 :: replaceDD (c2 :: rest)

/-- The `while '//' in path` loop, with fuel; each pass strictly shrinks
the string, so `s.length` passes always reach the fixpoint. -/
def collapseFuel : Nat → Str → Str
  | 0, s => s
  | n + 1, s => if hasDD s then collapseFuel n (replaceDD s) else s

def collapseSlashes (s : Str) : Str := collapseFuel s.length s

/-- Python `path.rstrip('/')`: every trailing slash is removed. -/
def rstripSlash (s : Str) : Str :=
  (s.reverse.dropWhile (fun c => c == '/')).reverse

/-- The listing path of src/sync.py lines 129-132: format, collapse the
separator runs, strip the trailing separator. -/
def list_path (sep : Char) (dir sub : Str) : Str :=
  rstripSlash (collapseSlashes ('/' :: dir ++ '/' :: replaceSep sep sub))

/-- The download path of src/sync.py lines 150-152: format and collapse,
with no trailing strip. -/
def download_path (sep : Char) (dir sub nm : Str) : Str :=
  collapseSlashes ('/' :: dir ++ '/' :: replaceSep sep sub ++ '/' :: nm)

/-- The upload path of src/sync.py lines 168-170: format and collapse,
with no trailing strip. -/
def upload_path (sep : Char) (dir sub nm : Str) : Str :=
  collapseSlashes ('/' :: dir ++ '/' :: replaceSep sep sub ++ '/' :: nm)

/-- Direct one-pass collapse of every separator run, used as the spec's
description of the normalization. -/
def squeezeSlashes : Str → Str
  | [] => []
  | [c] => [c]
  | c1 :: c2 :: rest =>
    if c1 == '/' && c2 == '/' then squeezeSlashes (c2 :: rest)
    else c1 :: squeezeSlashes (c2 :: rest)

/-- The normalization the spec claims for all three path constructions:
separator runs collapsed, trailing separator stripped. -/
def specNormalizePath (p : Str) : Str := rstripSlash (squeezeSlashes p)

/-! ## Data model of the reconciliation engine (src/sync.py `main`) -/

/-- A remote listing entry: `dropbox.files.FileMetadata` carries the
client-modified time (whole UTC seconds), size and content hash;
anything else (a directory entry) carries no file attributes. -/
inductive RemoteEntry where
  | file (clientModified : Nat) (size : Nat) (contentHash : Str)
  | folder
deriving DecidableEq

abbrev Listing := List (Str × RemoteEntry)

/-- The argparse namespace flags `--yes`, `--no`, `--default`. -/
structure Args where
  yes : Bool
  no : Bool
  default : Bool
deriving DecidableEq

/-- Result of one `yesno` call: an answer, a `SystemExit(code)`, or an
`EOFError` from `input()` on an exhausted stream. -/
inductive YRes where
  | ans (b : Bool)
  | exitProgram (code : Nat)
  | eofError
deriving DecidableEq

/-- The interactive loop of `yesno` (src/sync.py lines 217-231); `p`/`pdb`
drops into the debugger and re-prompts, unrecognized input re-prompts. -/
def yesnoLoop (dflt : Bool) : List Str → YRes × List Str
  | [] => (.eofError, [])
  | a :: rest =>
    let t := toLowerStr (stripStr a)
    if t = [] then (.ans dflt, rest)
    else if t = ['y'] ∨ t = ['y', 'e', 's'] then (.ans true, rest)
    else if t = ['n'] ∨ t = ['n', 'o'] then (.ans false, rest)
    else if t = ['q'] ∨ t = ['q', 'u', 'i', 't'] then (.exitProgram 0, rest)
    else yesnoLoop dflt rest

/-- src/sync.py `yesno` (lines 189-231): the `--default`, `--yes`, `--no`
flags answer without prompting, in that order; otherwise the interactive
loop runs on the input stream. -/
def yesno (msg : Str) (dflt : Bool) (args : Args) (inputs : List Str) : YRes × List Str :=
  if args.default then (.ans dflt, inputs)
  else if args.yes then (.ans true, inputs)
  else if args.no then (.ans false, inputs)
  else yesnoLoop dflt inputs

/-- Control outcome of a program fragment: normal completion,
`SystemExit(code)`, or an uncaught exception (which makes the Python
process exit with status 1). -/
inductive Ctl where
  | ok
  | exitc (code : Nat)
  | err
deriving DecidableEq

/-- Classification of one local file, per code path of lines 71-105. -/
inductive Decision where
  | skippedDot
  | skippedTemp
  | skippedGenerated
  | alreadySynced
  | uploadNew (confirmed : Bool)
  | uploadOverwrite (confirmed : Bool)
  | collision
  | aborted
deriving DecidableEq

/-- An invocation of the `upload` operation. -/
structure UploadAct where
  name : Str
  overwrite : Bool
deriving DecidableEq

/-- Observable outcome of processing one local file: control flow, the
remaining input stream, the uploads performed, whether the content hash
was computed, and whether `yesno` was invoked at all. -/
structure FileOutcome where
  ctl : Ctl
  inputs : List Str
  uploads : List UploadAct
  hashed : Bool
  yesnoCalled : Bool
  decision : Decision
deriving DecidableEq

/-- A local file snapshot: name, `gmtime`-truncated modification seconds,
size, and content bytes. -/
structure LocalFile where
  name : Str
  mtime : Nat
  size : Nat
  content : List Nat
deriving DecidableEq

/-- The per-file body of the walk loop, src/sync.py lines 71-105.  The
source tests `isinstance(md, FileMetadata) and mtime_dt == md.client_modified
and size == md.size` and in the else-branch unconditionally reads
`md.client_modified`; on a directory entry that attribute read raises
`AttributeError`, modelled by `Ctl.err`. -/
def processFile (nfc : Str → Str) (args : Args) (listing : Listing)
    (f : LocalFile) (inputs : List Str) : FileOutcome :=
  let name := f.name
  let nname := nfc name
  if startswith name ['.'] then ⟨.ok, inputs, [], false, false, .skippedDot⟩
  else if startswith name ['@'] || endswith name ['~'] then
    ⟨.ok, inputs, [], false, false, .skippedTemp⟩
  else if endswith name ['.', 'p', 'y', 'c'] || endswith name ['.', 'p', 'y', 'o'] then
    ⟨.ok, inputs, [], false, false, .skippedGenerated⟩
  else
    match List.lookup nname listing with
    | some (RemoteEntry.file cm sz ch) =>
      if f.mtime = cm ∧ f.size = sz then ⟨.ok, inputs, [], false, false, .alreadySynced⟩
      else
        let dbHash := dropbox_hash f.content
        if dbHash ≠ ch then
          match yesno ['R'] false args inputs with
          | (.ans true, rest) => ⟨.ok, rest, [⟨name, true⟩], true, true, .uploadOverwrite true⟩
          | (.ans false, rest) => ⟨.ok, rest, [], true, true, .uploadOverwrite false⟩
          | (.exitProgram c, rest) => ⟨.exitc c, rest, [], true, true, .aborted⟩
          | (.eofError, rest) => ⟨.err, rest, [], true, true, .aborted⟩
        else ⟨.ok, inputs, [], true, false, .alreadySynced⟩
    | some RemoteEntry.folder =>
      -- line 92 prints, then line 93 reads md.client_modified: AttributeError
      ⟨.err, inputs, [], false, false, .collision⟩
    | none =>
      match yesno ['U'] true args inputs with
      | (.ans true, rest) => ⟨.ok, rest, [⟨name, false⟩], false, true, .uploadNew true⟩
      | (.ans false, rest) => ⟨.ok, rest, [], false, true, .uploadNew false⟩
      | (.exitProgram c, rest) => ⟨.exitc c, rest, [], false, true, .aborted⟩
      | (.eofError, rest) => ⟨.err, rest, [], false, true, .aborted⟩

/-- Accumulated outcome of a walk fragment. -/
structure WalkOut where
  ctl : Ctl
  inputs : List Str
  uploads : List UploadAct
deriving DecidableEq

/-- The `for name in files` loop (lines 71-105); an exception or
`SystemExit` raised on one file abandons the rest of the loop. -/
def runFiles (nfc : Str → Str) (args : Args) (listing : Listing) :
    List LocalFile → List Str → WalkOut
  | [], inputs => ⟨.ok, inputs, []⟩
  | f :: fs, inputs =>
    let r := processFile nfc args listing f inputs
    match r.ctl with
    | .ok =>
      let w := runFiles nfc args listing fs r.inputs
      ⟨w.ctl, w.inputs, r.uploads ++ w.uploads⟩
    | c => ⟨c, r.inputs, r.uploads⟩

/-- Outcome of the directory-filter loop (lines 108-121): a keep flag per
directory name, in order. -/
structure DirFilterOut where
  ctl : Ctl
  inputs : List Str
  flags : List Bool
deriving DecidableEq

/-- The `for name in dirs` filter loop of src/sync.py lines 108-121. -/
def runDirsFilter (args : Args) : List Str → List Str → DirFilterOut
  | [], inputs => ⟨.ok, inputs, []⟩
  | n :: ns, inputs =>
    if startswith n ['.'] then
      let r := runDirsFilter args ns inputs
      ⟨r.ctl, r.inputs, false :: r.flags⟩
    else if startswith n ['@'] || endswith n ['~'] then
      let r := runDirsFilter args ns inputs
      ⟨r.ctl, r.inputs, false :: r.flags⟩
    else if n = ['_', '_', 'p', 'y', 'c', 'a', 'c', 'h', 'e', '_', '_'] then
      let r := runDirsFilter args ns inputs
      ⟨r.ctl, r.inputs, false :: r.flags⟩
    else
      match yesno ['D'] true args inputs with
      | (.ans b, rest) =>
        let r := runDirsFilter args ns rest
        ⟨r.ctl, r.inputs, b :: r.flags⟩
      | (.exitProgram c, rest) => ⟨.exitc c, rest, []⟩
      | (.eofError, rest) => ⟨.err, rest, []⟩

/-- A local directory tree: files in this directory and named subtrees. -/
inductive LTree where
  | node (files : List LocalFile) (dirs : List (Str × LTree))

/-- Python dict assignment `rv[entry.name] = entry`. -/
def dictSet (m : Listing) (kv : Str × RemoteEntry) : Listing :=
  if (List.lookup kv.1 m).isSome then
    m.map (fun p => if p.1 = kv.1 then kv else p)
  else m ++ [kv]

/-- src/sync.py `list_directory` (lines 123-143): build the remote path,
call the API, and on `ApiError` print and return the empty mapping. -/
def list_directory (sep : Char) (dbx : Str → Except Unit (List (Str × RemoteEntry)))
    (dir sub : Str) : Listing :=
  match dbx (list_path sep dir sub) with
  | Except.error _ => []
  | Except.ok entries => entries.foldl dictSet []

/-- Relative path of a child directory in the walk. -/
def childSub (sep : Char) (sub nm : Str) : Str :=
  if sub = [] then nm else sub ++ sep :: nm

mutual

/-- One `os.walk` visit (lines 65-121): list the remote directory, run
the file loop, filter the subdirectories, then recurse into the kept
ones in order.  `L` maps a relative subdirectory to its remote listing. -/
def runWalk (L : Str → Listing) (nfc : Str → Str) (args : Args) (sep : Char)
    (sub : Str) : LTree → List Str → WalkOut
  | .node files dirs, inputs =>
    let listing := L sub
    let rf := runFiles nfc args listing files inputs
    match rf.ctl with
    | .ok =>
      let rd := runDirsFilter args (dirs.map Prod.fst) rf.inputs
      match rd.ctl with
      | .ok =>
        let rw := runWalkList L nfc args sep sub dirs rd.flags rd.inputs
        ⟨rw.ctl, rw.inputs, rf.uploads ++ rw.uploads⟩
      | c => ⟨c, rd.inputs, rf.uploads⟩
    | c => ⟨c, rf.inputs, rf.uploads⟩

/-- Sequential recursion into the subdirectories whose keep flag is true. -/
def runWalkList (L : Str → Listing) (nfc : Str → Str) (args : Args) (sep : Char)
    (sub : Str) : List (Str × LTree) → List Bool → List Str → WalkOut
  | [], _, inputs => ⟨.ok, inputs, []⟩
  | _ :: _, [], inputs => ⟨.ok, inputs, []⟩
  | (nm, t) :: ds, kept :: fl, inputs =>
    if kept then
      let rw := runWalk L nfc args sep (childSub sep sub nm) t inputs
      match rw.ctl with
      | .ok =>
        let rest := runWalkList L nfc args sep sub ds fl rw.inputs
        ⟨rest.ctl, rest.inputs, rw.uploads ++ rest.uploads⟩
      | c => ⟨c, rw.inputs, rw.uploads⟩
    else runWalkList L nfc args sep sub ds fl inputs

end

/-- Process exit status for a control outcome: `SystemExit(c)` exits with
`c`, an uncaught exception exits with 1. -/
def programExitCode (c : Ctl) : Nat :=
  match c with
  | .ok => 0
  | .exitc n => n
  | .err => 1

/-! ## Program startup (src/sync.py lines 27-63) -/

/-- Observable startup outcome: control, whether the missing-source
message was printed, whether the Dropbox client was constructed, and
whether the walk over entries began. -/
structure MainStart where
  ctl : Ctl
  reportedMissing : Bool
  clientConstructed : Bool
  entriesProcessed : Bool
deriving DecidableEq

/-- Attribute lookup on the argparse namespace; a missing attribute is
`none` (Python raises `AttributeError`). -/
def nsGet (attrs : List (Str × Str)) (k : Str) : Option Str := List.lookup k attrs

/-- Models argparse for the mutually exclusive group declared at lines
28 and 32-37: requesting more than one of `--yes`, `--no`, `--default`
makes `parse_args` report a usage error and exit with status 2 before
`main`'s body runs. -/
def parse_args (y n d : Bool) : Except Nat Args :=
  if ((if y then 1 else 0) + (if n then 1 else 0) + (if d then 1 else 0) : Nat) > 1 then
    Except.error 2
  else Except.ok ⟨y, n, d⟩

/-- The body of `main` up to the walk (lines 47-65).  The parser binds
only `source`, `destination` and `token`, but line 52 reads
`args.directory` and line 53 reads `args.rootdir`; the first of these
raises `AttributeError` before the source-path checks run. -/
def mainStartup (args : Args) (src dst tok : Str) (pathExists pathIsDir : Bool) : MainStart :=
  let attrs : List (Str × Str) :=
    [(['s', 'o', 'u', 'r', 'c', 'e'], src),
     (['d', 'e', 's', 't', 'i', 'n', 'a', 't', 'i', 'o', 'n'], dst),
     (['t', 'o', 'k', 'e', 'n'], tok)]
  match nsGet attrs ['d', 'i', 'r', 'e', 'c', 't', 'o', 'r', 'y'] with
  | none => ⟨Ctl.err, false, false, false⟩
  | some _ =>
    match nsGet attrs ['r', 'o', 'o', 't', 'd', 'i', 'r'] with
    | none => ⟨Ctl.err, false, false, false⟩
    | some _ =>
      if pathExists = false then ⟨Ctl.exitc 1, true, false, false⟩
      else if pathIsDir = false then ⟨Ctl.exitc 1, true, false, false⟩
      else ⟨Ctl.ok, false, true, true⟩

/-- Argument parsing followed by `main`'s startup. -/
def runProgram (y n d : Bool) (src dst tok : Str) (pathExists pathIsDir : Bool) : MainStart :=
  match parse_args y n d with
  | Except.error c => ⟨Ctl.exitc c, false, false, false⟩
  | Except.ok args => mainStartup args src dst tok pathExists pathIsDir

/-! ## Claim theorems -/

/-- C10: when a decision is requested with more than one confirmation
flag set, `yesno` resolves them by the fixed precedence default-flag
first, then yes-flag, then no-flag: with the default flag set it returns
the question's default answer even if yes or no is also set, with yes
set (default unset) it returns true even if no is also set, and whenever
any flag is set it returns an answer (never an error) without consuming
input. -/
theorem yesno_flag_precedence (args : Args) (msg : Str) (dflt : Bool) (inputs : List Str) :
    (args.default = true → yesno msg dflt args inputs = (YRes.ans dflt, inputs)) ∧
    (args.default = false → args.yes = true →
      yesno msg dflt args inputs = (YRes.ans true, inputs)) ∧
    (args.default = false → args.yes = false → args.no = true →
      yesno msg dflt args inputs = (YRes.ans false, inputs)) ∧
    ((args.default || args.yes || args.no) = true →
      ∃ b, yesno msg dflt args inputs = (YRes.ans b, inputs)) := by
  refine ⟨?_, ?_, ?_, ?_⟩
  · intro h; simp [yesno, h]
  · intro h1 h2; simp [yesno, h1, h2]
  · intro h1 h2 h3; simp [yesno, h1, h2, h3]
  · intro h
    cases hd : args.default with
    | true => exact ⟨dflt, by simp [yesno, hd]⟩
    | false =>
      cases hy : args.yes with
      | true => exact ⟨true, by simp [yesno, hd, hy]⟩
      | false =>
        cases hn : args.no with
        | true => exact ⟨false, by simp [yesno, hd, hy, hn]⟩
        | false => rw [hd, hy, hn] at h; simp at h

/-- C10 witness: with all three flags set the default answer wins, and
with yes and no both set (default unset) the answer is true. -/
theorem yesno_flag_precedence_witness :
    ((⟨true, true, true⟩ : Args).default = true ∧
      yesno [] false ⟨true, true, true⟩ [] = (YRes.ans false, [])) ∧
    ((⟨true, true, false⟩ : Args).default = false ∧ (⟨true, true, false⟩ : Args).yes = true ∧
      yesno [] false ⟨true, true, false⟩ [] = (YRes.ans true, [])) :=
  ⟨⟨rfl, (yesno_flag_precedence ⟨true, true, true⟩ [] false []).1 rfl⟩,
   ⟨rfl, rfl, (yesno_flag_precedence ⟨true, true, false⟩ [] false []).2.1 rfl rfl⟩⟩

/-- C9: requesting more than one of the mutually exclusive confirmation
options makes argument parsing fail with a configuration error (usage
error, exit status 2) at startup, before the client is constructed or
any entry is processed. -/
theorem parser_rejects_conflicting_flags (y n d : Bool) (src dst tok : Str)
    (pathExists pathIsDir : Bool)
    (h : ((y && n) || (y && d) || (n && d)) = true) :
    parse_args y n d = Except.error 2 ∧
    runProgram y n d src dst tok pathExists pathIsDir =
      ⟨Ctl.exitc 2, false, false, false⟩ := by
  have hp : parse_args y n d = Except.error 2 := by
    unfold parse_args
    cases y <;> cases n <;> cases d <;> simp_all
  refine ⟨hp, ?_⟩
  unfold runProgram
  rw [hp]

/-- C9 witness: `--yes --no` together are rejected at startup. -/
theorem parser_rejects_conflicting_flags_witness :
    ((true && true) || (true && false) || (true && false)) = true ∧
    parse_args true true false = Except.error 2 ∧
    runProgram true true false [] [] [] true true = ⟨Ctl.exitc 2, false, false, false⟩ :=
  ⟨by decide,
   (parser_rejects_conflicting_flags true true false [] [] [] true true (by decide)).1,
   (parser_rejects_conflicting_flags true true false [] [] [] true true (by decide)).2⟩

/-- C7 (code bug evidence): on every invocation — in particular when the
source path does not exist — `main` crashes with `AttributeError` at
line 52 (`args.directory`; the parser binds `source`/`destination`), so
the process exits with status 1 from an uncaught exception, without
printing the missing-source report and without reaching the existence
check; the remote client is still never constructed. -/
theorem startup_attribute_error_eval (src dst tok : Str) (pathExists pathIsDir : Bool) :
    runProgram false false false src dst tok pathExists pathIsDir =
      ⟨Ctl.err, false, false, false⟩ ∧
    programExitCode Ctl.err = 1 :=
  ⟨rfl, rfl⟩

/-- C2 (code bug evidence): a local file colliding with a remote
directory record reaches the else-branch of line 87, which prints and
then reads `md.client_modified` on the directory entry — an
`AttributeError` that crashes the program instead of a reported
no-action outcome; no upload is invoked, under every confirmation-flag
configuration. -/
theorem processFile_folder_collision_crashes :
    ∀ args : Args,
      processFile (fun s => s) args [(['x'], RemoteEntry.folder)] ⟨['x'], 3, 4, []⟩ [] =
        ⟨Ctl.err, [], [], false, false, Decision.collision⟩ := by
  intro args
  rfl

/-- C4: the pruning rules run in the fixed precedence order dot-prefix,
then at-prefix or tilde-suffix, then generated suffix (files) or the
generated directory name `__pycache__` (directories), first match
winning; a pruned file produces its skip outcome with no hash, no
`yesno` call, no upload and no dependence on the remote listing, and a
`__pycache__` directory is flagged out without consulting `yesno` and is
never descended into by the walk. -/
theorem pruning_precedence :
    (∀ (nfc : Str → Str) (args : Args) (listing : Listing) (f : LocalFile) (inputs : List Str),
      startswith f.name ['.'] = true →
      processFile nfc args listing f inputs =
        ⟨Ctl.ok, inputs, [], false, false, Decision.skippedDot⟩) ∧
    (∀ (nfc : Str → Str) (args : Args) (listing : Listing) (f : LocalFile) (inputs : List Str),
      startswith f.name ['.'] = false →
      (startswith f.name ['@'] = true ∨ endswith f.name ['~'] = true) →
      processFile nfc args listing f inputs =
        ⟨Ctl.ok, inputs, [], false, false, Decision.skippedTemp⟩) ∧
    (∀ (nfc : Str → Str) (args : Args) (listing : Listing) (f : LocalFile) (inputs : List Str),
      startswith f.name ['.'] = false → startswith f.name ['@'] = false →
      endswith f.name ['~'] = false →
      (endswith f.name ['.', 'p', 'y', 'c'] = true ∨ endswith f.name ['.', 'p', 'y', 'o'] = true) →
      processFile nfc args listing f inputs =
        ⟨Ctl.ok, inputs, [], false, false, Decision.skippedGenerated⟩) ∧
    (∀ (args : Args) (n : Str) (ns : List Str) (inputs : List Str),
      startswith n ['.'] = true →
      runDirsFilter args (n :: ns) inputs =
        ⟨(runDirsFilter args ns inputs).ctl, (runDirsFilter args ns inputs).inputs,
         false :: (runDirsFilter args ns inputs).flags⟩) ∧
    (∀ (args : Args) (n : Str) (ns : List Str) (inputs : List Str),
      startswith n ['.'] = false →
      (startswith n ['@'] = true ∨ endswith n ['~'] = true) →
      runDirsFilter args (n :: ns) inputs =
        ⟨(runDirsFilter args ns inputs).ctl, (runDirsFilter args ns inputs).inputs,
         false :: (runDirsFilter args ns inputs).flags⟩) ∧
    (∀ (args : Args) (ns : List Str) (inputs : List Str),
      runDirsFilter args (['_', '_', 'p', 'y', 'c', 'a', 'c', 'h', 'e', '_', '_'] :: ns) inputs =
        ⟨(runDirsFilter args ns inputs).ctl, (runDirsFilter args ns inputs).inputs,
         false :: (runDirsFilter args ns inputs).flags⟩) ∧
    (∀ (L : Str → Listing) (nfc : Str → Str) (args : Args) (sep : Char) (sub nm : Str)
        (t : LTree) (ds : List (Str × LTree)) (fl : List Bool) (inputs : List Str),
      runWalkList L nfc args sep sub ((nm, t) :: ds) (false :: fl) inputs =
        runWalkList L nfc args sep sub ds fl inputs) := by
  refine ⟨?_, ?_, ?_, ?_, ?_, ?_, ?_⟩
  · intro nfc args listing f inputs h
    simp [processFile, h]
  · intro nfc args listing f inputs h1 h2
    rcases h2 with h2 | h2 <;> simp [processFile, h1, h2]
  · intro nfc args listing f inputs h1 h2 h3 h4
    rcases h4 with h4 | h4 <;> simp [processFile, h1, h2, h3, h4]
  · intro args n ns inputs h
    simp [runDirsFilter, h]
  · intro args n ns inputs h1 h2
    rcases h2 with h2 | h2 <;> simp [runDirsFilter, h1, h2]
  · intro args ns inputs
    rfl
  · intro L nfc args sep sub nm t ds fl inputs
    simp [runWalkList]

/-- C4 witness: a dot file is skipped with the dot reason (even though it
also ends in a tilde), and a `__pycache__` directory is filtered out
with no confirmation consulted. -/
theorem pruning_precedence_witness :
    startswith ['.', 'a', '~'] ['.'] = true ∧
    processFile (fun s => s) ⟨true, false, false⟩ [] ⟨['.', 'a', '~'], 0, 0, []⟩ [] =
      ⟨Ctl.ok, [], [], false, false, Decision.skippedDot⟩ ∧
    runDirsFilter ⟨false, true, false⟩
        [['_', '_', 'p', 'y', 'c', 'a', 'c', 'h', 'e', '_', '_']] [] =
      ⟨Ctl.ok, [], [false]⟩ :=
  ⟨by decide,
   pruning_precedence.1 (fun s => s) ⟨true, false, false⟩ [] ⟨['.', 'a', '~'], 0, 0, []⟩ []
     (by decide),
   by
    have h := pruning_precedence.2.2.2.2.2.1 ⟨false, true, false⟩ [] []
    rw [h]
    simp [runDirsFilter]⟩

/-- C1: for a local file (not pruned) whose NFC-normalized name matches a
remote file record, the outcome is AlreadySynced with no upload and no
`yesno` call exactly when the truncated mtime and size both match the
record, or the content hash matches; when the stats match no hash is
computed, and when the stats differ but the hash matches the file is
AlreadySynced with the hash computed. -/
theorem processFile_alreadySynced_iff
    (nfc : Str → Str) (args : Args) (listing : Listing) (f : LocalFile)
    (inputs : List Str) (cm sz : Nat) (ch : Str)
    (hdot : startswith f.name ['.'] = false)
    (hat : startswith f.name ['@'] = false)
    (htil : endswith f.name ['~'] = false)
    (hpyc : endswith f.name ['.', 'p', 'y', 'c'] = false)
    (hpyo : endswith f.name ['.', 'p', 'y', 'o'] = false)
    (hmd : List.lookup (nfc f.name) listing = some (RemoteEntry.file cm sz ch)) :
    (((processFile nfc args listing f inputs).decision = Decision.alreadySynced ∧
      (processFile nfc args listing f inputs).uploads = [] ∧
      (processFile nfc args listing f inputs).yesnoCalled = false) ↔
      ((f.mtime = cm ∧ f.size = sz) ∨ dropbox_hash f.content = ch)) ∧
    ((f.mtime = cm ∧ f.size = sz) →
      (processFile nfc args listing f inputs).hashed = false) ∧
    (¬(f.mtime = cm ∧ f.size = sz) → dropbox_hash f.content = ch →
      (processFile nfc args listing f inputs).decision = Decision.alreadySynced ∧
      (processFile nfc args listing f inputs).hashed = true) := by
  by_cases hstats : f.mtime = cm ∧ f.size = sz
  · have hr : processFile nfc args listing f inputs =
        ⟨Ctl.ok, inputs, [], false, false, Decision.alreadySynced⟩ := by
      simp [processFile, hdot, hat, htil, hpyc, hpyo, hmd, hstats]
    rw [hr]
    simp [hstats]
  · by_cases hh : dropbox_hash f.content = ch
    · have hr : processFile nfc args listing f inputs =
          ⟨Ctl.ok, inputs, [], true, false, Decision.alreadySynced⟩ := by
        simp [processFile, hdot, hat, htil, hpyc, hpyo, hmd, hstats, hh]
      rw [hr]
      simp [hstats, hh]
    · rcases hy : yesno ['R'] false args inputs with ⟨yr, rest⟩
      have hrw : ∀ out : FileOutcome, out.decision ≠ Decision.alreadySynced →
          processFile nfc args listing f inputs = out →
          ((((processFile nfc args listing f inputs).decision = Decision.alreadySynced ∧
            (processFile nfc args listing f inputs).uploads = [] ∧
            (processFile nfc args listing f inputs).yesnoCalled = false) ↔
            ((f.mtime = cm ∧ f.size = sz) ∨ dropbox_hash f.content = ch)) ∧
          ((f.mtime = cm ∧ f.size = sz) →
            (processFile nfc args listing f inputs).hashed = false) ∧
          (¬(f.mtime = cm ∧ f.size = sz) → dropbox_hash f.content = ch →
            (processFile nfc args listing f inputs).decision = Decision.alreadySynced ∧
            (processFile nfc args listing f inputs).hashed = true)) := by
        intro out hne hout
        rw [hout]
        refine ⟨?_, ?_, ?_⟩
        · constructor
          · intro hc; exact absurd hc.1 hne
          · intro hc; rcases hc with hc | hc
            · exact absurd hc hstats
            · exact absurd hc hh
        · intro hc; exact absurd hc hstats
        · intro _ hc; exact absurd hc hh
      cases yr with
      | ans b =>
        cases b with
        | true =>
          refine hrw ⟨Ctl.ok, rest, [⟨f.name, true⟩], true, true,
            Decision.uploadOverwrite true⟩ (by simp) ?_
          simp [processFile, hdot, hat, htil, hpyc, hpyo, hmd, hstats, hh, hy]
        | false =>
          refine hrw ⟨Ctl.ok, rest, [], true, true, Decision.uploadOverwrite false⟩ (by simp) ?_
          simp [processFile, hdot, hat, htil, hpyc, hpyo, hmd, hstats, hh, hy]
      | exitProgram c =>
        refine hrw ⟨Ctl.exitc c, rest, [], true, true, Decision.aborted⟩ (by simp) ?_
        simp [processFile, hdot, hat, htil, hpyc, hpyo, hmd, hstats, hh, hy]
      | eofError =>
        refine hrw ⟨Ctl.err, rest, [], true, true, Decision.aborted⟩ (by simp) ?_
        simp [processFile, hdot, hat, htil, hpyc, hpyo, hmd, hstats, hh, hy]

/-- C1 witness: a file `a` with matching stats against its remote file
record; it is AlreadySynced with no upload, no prompt and no hash. -/
theorem processFile_alreadySynced_iff_witness :
    startswith ['a'] ['.'] = false ∧ startswith ['a'] ['@'] = false ∧
    endswith ['a'] ['~'] = false ∧ endswith ['a'] ['.', 'p', 'y', 'c'] = false ∧
    endswith ['a'] ['.', 'p', 'y', 'o'] = false ∧
    List.lookup ((fun s => s) (['a'] : Str))
      [((['a'] : Str), RemoteEntry.file 5 7 ['h'])] = some (RemoteEntry.file 5 7 ['h']) ∧
    ((((processFile (fun s => s) ⟨false, false, false⟩
        [((['a'] : Str), RemoteEntry.file 5 7 ['h'])]
        ⟨['a'], 5, 7, []⟩ []).decision = Decision.alreadySynced ∧
      (processFile (fun s => s) ⟨false, false, false⟩
        [((['a'] : Str), RemoteEntry.file 5 7 ['h'])]
        ⟨['a'], 5, 7, []⟩ []).uploads = [] ∧
      (processFile (fun s => s) ⟨false, false, false⟩
        [((['a'] : Str), RemoteEntry.file 5 7 ['h'])]
        ⟨['a'], 5, 7, []⟩ []).yesnoCalled = false) ↔
      (((5 : Nat) = 5 ∧ (7 : Nat) = 7) ∨ dropbox_hash [] = ['h'])) ∧
    (((5 : Nat) = 5 ∧ (7 : Nat) = 7) →
      (processFile (fun s => s) ⟨false, false, false⟩
        [((['a'] : Str), RemoteEntry.file 5 7 ['h'])]
        ⟨['a'], 5, 7, []⟩ []).hashed = false) ∧
    (¬((5 : Nat) = 5 ∧ (7 : Nat) = 7) → dropbox_hash [] = ['h'] →
      (processFile (fun s => s) ⟨false, false, false⟩
        [((['a'] : Str), RemoteEntry.file 5 7 ['h'])]
        ⟨['a'], 5, 7, []⟩ []).decision = Decision.alreadySynced ∧
      (processFile (fun s => s) ⟨false, false, false⟩
        [((['a'] : Str), RemoteEntry.file 5 7 ['h'])]
        ⟨['a'], 5, 7, []⟩ []).hashed = true)) :=
  ⟨by decide, by decide, by decide, by decide, by decide, by decide,
   processFile_alreadySynced_iff (fun s => s) ⟨false, false, false⟩
     [((['a'] : Str), RemoteEntry.file 5 7 ['h'])] ⟨['a'], 5, 7, []⟩ [] 5 7 ['h']
     (by decide) (by decide) (by decide) (by decide) (by decide) (by decide)⟩

/-- Helper: once the file loop raises `SystemExit`, appending further
files changes nothing — they are never processed. -/
theorem runFiles_exit_append (nfc : Str → Str) (args : Args) (listing : Listing) :
    ∀ (fs1 fs2 : List LocalFile) (inputs : List Str) (c : Nat),
      (runFiles nfc args listing fs1 inputs).ctl = Ctl.exitc c →
      runFiles nfc args listing (fs1 ++ fs2) inputs = runFiles nfc args listing fs1 inputs := by
  intro fs1
  induction fs1 with
  | nil =>
    intro fs2 inputs c h
    simp [runFiles] at h
  | cons f fs ih =>
    intro fs2 inputs c h
    rw [List.cons_append]
    cases hc : (processFile nfc args listing f inputs).ctl with
    | ok =>
      have h' : (runFiles nfc args listing fs
          (processFile nfc args listing f inputs).inputs).ctl = Ctl.exitc c := by
        simp only [runFiles, hc] at h
        exact h
      simp only [runFiles, hc]
      rw [ih fs2 (processFile nfc args listing f inputs).inputs c h']
    | exitc c' =>
      simp only [runFiles, hc]
    | err =>
      simp only [runFiles, hc] at h
      exact absurd h (by simp)

/-- Helper: once the recursive descent raises `SystemExit`, appending
further sibling subtrees (with their keep flags) changes nothing. -/
theorem runWalkList_exit_append (L : Str → Listing) (nfc : Str → Str) (args : Args)
    (sep : Char) (sub : Str) :
    ∀ (ds1 : List (Str × LTree)) (fl1 : List Bool) (ds2 : List (Str × LTree))
      (fl2 : List Bool) (inputs : List Str) (c : Nat),
      fl1.length = ds1.length →
      (runWalkList L nfc args sep sub ds1 fl1 inputs).ctl = Ctl.exitc c →
      runWalkList L nfc args sep sub (ds1 ++ ds2) (fl1 ++ fl2) inputs =
        runWalkList L nfc args sep sub ds1 fl1 inputs := by
  intro ds1
  induction ds1 with
  | nil =>
    intro fl1 ds2 fl2 inputs c hlen h
    have hfl : fl1 = [] := List.eq_nil_of_length_eq_zero hlen
    subst hfl
    simp [runWalkList] at h
  | cons d ds ih =>
    intro fl1 ds2 fl2 inputs c hlen h
    cases fl1 with
    | nil => simp at hlen
    | cons b fl =>
      rcases d with ⟨nm, t⟩
      have hlen' : fl.length = ds.length := by simpa using hlen
      rw [List.cons_append, List.cons_append]
      cases b with
      | false =>
        have h' : (runWalkList L nfc args sep sub ds fl inputs).ctl = Ctl.exitc c := by
          simp only [runWalkList] at h
          simpa using h
        have hrec := ih fl ds2 fl2 inputs c hlen' h'
        simp only [runWalkList]
        simp only [if_neg (by simp : ¬(false = true))]
        exact hrec
      | true =>
        cases hc : (runWalk L nfc args sep (childSub sep sub nm) t inputs).ctl with
        | ok =>
          have h' : (runWalkList L nfc args sep sub ds fl
              (runWalk L nfc args sep (childSub sep sub nm) t inputs).inputs).ctl =
              Ctl.exitc c := by
            simp only [runWalkList, if_pos rfl, hc] at h
            exact h
          simp only [runWalkList, if_pos rfl, hc]
          rw [ih fl ds2 fl2
            (runWalk L nfc args sep (childSub sep sub nm) t inputs).inputs c hlen' h']
          simp
        | exitc c' =>
          simp only [runWalkList, if_pos rfl, hc]
          simp
        | err =>
          simp only [runWalkList, if_pos rfl, hc] at h
          exact absurd h (by simp)

/-- C5: with no force flag set, a quit token at the interactive prompt
raises `SystemExit(0)` immediately; a `SystemExit` short-circuits the
rest of the file loop and the rest of the recursive descent (nothing
further is processed and no further uploads happen), and the process
exit status for `SystemExit(0)` is 0. -/
theorem quit_full_abort (args : Args)
    (hd : args.default = false) (hy : args.yes = false) (hn : args.no = false) :
    (∀ (msg : Str) (dflt : Bool) (rest : List Str),
      yesno msg dflt args (['q'] :: rest) = (YRes.exitProgram 0, rest) ∧
      yesno msg dflt args (['q', 'u', 'i', 't'] :: rest) = (YRes.exitProgram 0, rest)) ∧
    (∀ (nfc : Str → Str) (listing : Listing) (fs1 fs2 : List LocalFile)
        (inputs : List Str) (c : Nat),
      (runFiles nfc args listing fs1 inputs).ctl = Ctl.exitc c →
      runFiles nfc args listing (fs1 ++ fs2) inputs = runFiles nfc args listing fs1 inputs) ∧
    (∀ (L : Str → Listing) (nfc : Str → Str) (sep : Char) (sub : Str)
        (ds1 : List (Str × LTree)) (fl1 : List Bool) (ds2 : List (Str × LTree))
        (fl2 : List Bool) (inputs : List Str) (c : Nat),
      fl1.length = ds1.length →
      (runWalkList L nfc args sep sub ds1 fl1 inputs).ctl = Ctl.exitc c →
      runWalkList L nfc args sep sub (ds1 ++ ds2) (fl1 ++ fl2) inputs =
        runWalkList L nfc args sep sub ds1 fl1 inputs) ∧
    programExitCode (Ctl.exitc 0) = 0 := by
  refine ⟨?_, ?_, ?_, rfl⟩
  · intro msg dflt rest
    have h1 : toLowerStr (stripStr ['q']) = ['q'] := by decide
    have h2 : toLowerStr (stripStr ['q', 'u', 'i', 't']) = ['q', 'u', 'i', 't'] := by decide
    constructor
    · simp [yesno, hd, hy, hn, yesnoLoop, h1]
    · simp [yesno, hd, hy, hn, yesnoLoop, h2]
  · intro nfc listing fs1 fs2 inputs c h
    exact runFiles_exit_append nfc args listing fs1 fs2 inputs c h
  · intro L nfc sep sub ds1 fl1 ds2 fl2 inputs c hlen h
    exact runWalkList_exit_append L nfc args sep sub ds1 fl1 ds2 fl2 inputs c hlen h

/-- C5 witness: a `q` answer at an upload prompt exits with `SystemExit(0)`
and the remaining files of the walk are not processed. -/
theorem quit_full_abort_witness :
    (⟨false, false, false⟩ : Args).default = false ∧
    (⟨false, false, false⟩ : Args).yes = false ∧
    (⟨false, false, false⟩ : Args).no = false ∧
    yesno [] true ⟨false, false, false⟩ [['q']] = (YRes.exitProgram 0, []) ∧
    (runFiles (fun s => s) ⟨false, false, false⟩ [] [⟨['a'], 1, 2, []⟩] [['q']]).ctl =
      Ctl.exitc 0 ∧
    runFiles (fun s => s) ⟨false, false, false⟩ []
        ([⟨['a'], 1, 2, []⟩] ++ [⟨['b'], 3, 4, []⟩]) [['q']] =
      runFiles (fun s => s) ⟨false, false, false⟩ [] [⟨['a'], 1, 2, []⟩] [['q']] :=
  ⟨rfl, rfl, rfl,
   ((quit_full_abort ⟨false, false, false⟩ rfl rfl rfl).1 [] true []).1,
   by decide,
   (quit_full_abort ⟨false, false, false⟩ rfl rfl rfl).2.1 (fun s => s) []
     [⟨['a'], 1, 2, []⟩] [⟨['b'], 3, 4, []⟩] [['q']] 0 (by decide)⟩

/-- C6: a failing remote listing call yields the empty mapping instead of
propagating the error, and the whole walk behaves exactly as if that
subdirectory's remote side were empty. -/
theorem list_directory_error_treated_empty (sep : Char)
    (dbx : Str → Except Unit (List (Str × RemoteEntry))) (dir sub : Str) (e : Unit)
    (h : dbx (list_path sep dir sub) = Except.error e) :
    list_directory sep dbx dir sub = [] ∧
    (∀ (nfc : Str → Str) (args : Args) (sub0 : Str) (t : LTree) (inputs : List Str),
      runWalk (fun s => list_directory sep dbx dir s) nfc args sep sub0 t inputs =
        runWalk (fun s => if s = sub then [] else list_directory sep dbx dir s)
          nfc args sep sub0 t inputs) := by
  have hempty : list_directory sep dbx dir sub = [] := by
    simp [list_directory, h]
  refine ⟨hempty, ?_⟩
  intro nfc args sub0 t inputs
  have hfun : (fun s => list_directory sep dbx dir s) =
      (fun s => if s = sub then [] else list_directory sep dbx dir s) := by
    funext s
    by_cases hs : s = sub
    · rw [hs, hempty]; simp
    · simp [hs]
  rw [hfun]

/-- C6 witness: an accessor whose every call fails produces the empty
listing for a concrete subdirectory, and the walk result is unchanged by
replacing that subdirectory's remote answer with the empty listing. -/
theorem list_directory_error_treated_empty_witness :
    (fun _ : Str => (Except.error () : Except Unit (List (Str × RemoteEntry))))
        (list_path '/' ['d'] ['s']) = Except.error () ∧
    list_directory '/' (fun _ => Except.error ()) ['d'] ['s'] = [] ∧
    runWalk (fun s => list_directory '/' (fun _ => Except.error ()) ['d'] s)
        (fun s => s) ⟨false, false, false⟩ '/' [] (LTree.node [] []) [] =
      runWalk (fun s => if s = ['s'] then []
          else list_directory '/' (fun _ => Except.error ()) ['d'] s)
        (fun s => s) ⟨false, false, false⟩ '/' [] (LTree.node [] []) [] :=
  ⟨rfl,
   (list_directory_error_treated_empty '/' (fun _ => Except.error ()) ['d'] ['s'] () rfl).1,
   (list_directory_error_treated_empty '/' (fun _ => Except.error ()) ['d'] ['s'] () rfl).2
     (fun s => s) ⟨false, false, false⟩ [] (LTree.node [] []) []⟩

/-! ## Content-hash lemmas -/

theorem chunksOfPos_cons (k : Nat) (a : α) (rest : List α) :
    chunksOfPos k (a :: rest) =
      (a :: rest).take (k + 1) :: chunksOfPos k ((a :: rest).drop (k + 1)) := by
  rw [chunksOfPos]

theorem chunksOfPos_nil (k : Nat) : chunksOfPos k ([] : List α) = [] := by
  rw [chunksOfPos]

/-- Chunking preserves the byte stream. -/
theorem chunksOfPos_flatten (k : Nat) : ∀ l : List α, (chunksOfPos k l).flatten = l := by
  have main : ∀ (n : Nat) (l : List α), l.length ≤ n → (chunksOfPos k l).flatten = l := by
    intro n
    induction n with
    | zero =>
      intro l hl
      have : l = [] := List.eq_nil_of_length_eq_zero (Nat.le_zero.mp hl)
      subst this
      simp [chunksOfPos_nil]
    | succ n ih =>
      intro l hl
      cases l with
      | nil => simp [chunksOfPos_nil]
      | cons a rest =>
        rw [chunksOfPos_cons]
        have hlen : ((a :: rest).drop (k + 1)).length ≤ n := by
          simp only [List.length_drop, List.length_cons]
          simp only [List.length_cons] at hl
          omega
        simp only [List.flatten_cons, ih _ hlen, List.take_append_drop]
  intro l
  exact main l.length l (Nat.le_refl _)

theorem fullPart_pos {l : List Nat} (h : BLOCK_SIZE ≤ l.length) :
    fullPart l = l.take BLOCK_SIZE :: fullPart (l.drop BLOCK_SIZE) := by
  rw [fullPart]
  exact dif_pos h

theorem fullPart_neg {l : List Nat} (h : ¬BLOCK_SIZE ≤ l.length) : fullPart l = [] := by
  rw [fullPart]
  exact dif_neg h

theorem restPart_pos {l : List Nat} (h : BLOCK_SIZE ≤ l.length) :
    restPart l = restPart (l.drop BLOCK_SIZE) := by
  rw [restPart]
  exact dif_pos h

theorem restPart_neg {l : List Nat} (h : ¬BLOCK_SIZE ≤ l.length) : restPart l = l := by
  rw [restPart]
  exact dif_neg h

theorem flushBlocks_pos {acc p : List Nat} (h : BLOCK_SIZE ≤ p.length) :
    flushBlocks acc p =
      flushBlocks (acc ++ sha256 (p.take BLOCK_SIZE)) (p.drop BLOCK_SIZE) := by
  rw [flushBlocks]
  exact dif_pos h

theorem flushBlocks_neg {acc p : List Nat} (h : ¬BLOCK_SIZE ≤ p.length) :
    flushBlocks acc p = (acc, p) := by
  rw [flushBlocks]
  exact dif_neg h

/-- The flush loop closes exactly the full blocks and keeps the rest. -/
theorem flushBlocks_spec : ∀ (acc p : List Nat),
    flushBlocks acc p = (acc ++ ((fullPart p).map sha256).flatten, restPart p) := by
  have main : ∀ (n : Nat) (acc p : List Nat), p.length ≤ n →
      flushBlocks acc p = (acc ++ ((fullPart p).map sha256).flatten, restPart p) := by
    intro n
    induction n with
    | zero =>
      intro acc p hp
      have hp0 : p = [] := List.eq_nil_of_length_eq_zero (Nat.le_zero.mp hp)
      subst hp0
      have hneg : ¬BLOCK_SIZE ≤ (([] : List Nat)).length := by decide
      rw [flushBlocks_neg hneg, fullPart_neg hneg, restPart_neg hneg]
      simp
    | succ n ih =>
      intro acc p hp
      by_cases h : BLOCK_SIZE ≤ p.length
      · have hlen : (p.drop BLOCK_SIZE).length ≤ n := by
          simp only [List.length_drop]
          have hb : 0 < BLOCK_SIZE := by decide
          omega
        rw [flushBlocks_pos h, fullPart_pos h, restPart_pos h, ih _ _ hlen]
        simp [List.append_assoc]
      · rw [flushBlocks_neg h, fullPart_neg h, restPart_neg h]
        simp
  intro acc p
  exact main p.length acc p (Nat.le_refl _)

/-- The block decomposition is the full blocks plus the non-empty rest. -/
theorem blocksOf_decomp : ∀ l : List Nat,
    blocksOf l = fullPart l ++ (if restPart l = [] then [] else [restPart l]) := by
  have hB1 : BLOCK_SIZE - 1 + 1 = BLOCK_SIZE := by decide
  have main : ∀ (n : Nat) (l : List Nat), l.length ≤ n →
      blocksOf l = fullPart l ++ (if restPart l = [] then [] else [restPart l]) := by
    intro n
    induction n with
    | zero =>
      intro l hl
      have hl0 : l = [] := List.eq_nil_of_length_eq_zero (Nat.le_zero.mp hl)
      subst hl0
      have hneg : ¬BLOCK_SIZE ≤ (([] : List Nat)).length := by decide
      rw [blocksOf, chunksOfPos_nil, fullPart_neg hneg, restPart_neg hneg]
      simp
    | succ n ih =>
      intro l hl
      cases l with
      | nil =>
        have hneg : ¬BLOCK_SIZE ≤ (([] : List Nat)).length := by decide
        rw [blocksOf, chunksOfPos_nil, fullPart_neg hneg, restPart_neg hneg]
        simp
      | cons a rest =>
        by_cases h : BLOCK_SIZE ≤ (a :: rest).length
        · have hlen : ((a :: rest).drop BLOCK_SIZE).length ≤ n := by
            simp only [List.length_drop, List.length_cons]
            simp only [List.length_cons] at hl
            omega
          have hrec := ih _ hlen
          rw [blocksOf] at hrec ⊢
          rw [chunksOfPos_cons, hB1, fullPart_pos h, restPart_pos h]
          rw [hrec]
          simp
        · have hle : (a :: rest).length ≤ BLOCK_SIZE := Nat.le_of_not_le h
          have hne : restPart (a :: rest) ≠ [] := by
            rw [restPart_neg h]
            simp
          rw [blocksOf, chunksOfPos_cons, hB1, fullPart_neg h, restPart_neg h]
          rw [List.take_of_length_le hle, List.drop_of_length_le hle, chunksOfPos_nil]
          rw [restPart_neg h] at hne
          simp [hne]
  intro l
  exact main l.length l (Nat.le_refl _)

/-- Appending more bytes: the full blocks and rest recombine through the
previous rest. -/
theorem fullPart_restPart_append : ∀ (d c : List Nat),
    fullPart (d ++ c) = fullPart d ++ fullPart (restPart d ++ c) ∧
    restPart (d ++ c) = restPart (restPart d ++ c) := by
  have main : ∀ (n : Nat) (d c : List Nat), d.length ≤ n →
      fullPart (d ++ c) = fullPart d ++ fullPart (restPart d ++ c) ∧
      restPart (d ++ c) = restPart (restPart d ++ c) := by
    intro n
    induction n with
    | zero =>
      intro d c hd
      have hd0 : d = [] := List.eq_nil_of_length_eq_zero (Nat.le_zero.mp hd)
      subst hd0
      have hneg : ¬BLOCK_SIZE ≤ (([] : List Nat)).length := by decide
      rw [fullPart_neg hneg, restPart_neg hneg]
      simp
    | succ n ih =>
      intro d c hd
      by_cases h : BLOCK_SIZE ≤ d.length
      · have hdc : BLOCK_SIZE ≤ (d ++ c).length := by
          simp only [List.length_append]
          omega
        have hlen : (d.drop BLOCK_SIZE).length ≤ n := by
          simp only [List.length_drop]
          have hb : 0 < BLOCK_SIZE := by decide
          omega
        have htake : (d ++ c).take BLOCK_SIZE = d.take BLOCK_SIZE :=
          List.take_append_of_le_length h
        have hdrop : (d ++ c).drop BLOCK_SIZE = d.drop BLOCK_SIZE ++ c :=
          List.drop_append_of_le_length h
        obtain ⟨ihf, ihr⟩ := ih (d.drop BLOCK_SIZE) c hlen
        constructor
        · rw [fullPart_pos hdc, htake, hdrop, ihf, fullPart_pos h, restPart_pos h]
          simp
        · rw [restPart_pos hdc, hdrop, ihr, restPart_pos h]
      · rw [fullPart_neg h, restPart_neg h]
        simp
  intro d c
  exact main d.length d c (Nat.le_refl _)

/-- State of the hasher after absorbing `d ++ chunks.flatten` bytes. -/
theorem foldl_hUpdate_state : ∀ (chunks : List (List Nat)) (d : List Nat),
    chunks.foldl hUpdate ⟨((fullPart d).map sha256).flatten, restPart d⟩ =
      ⟨((fullPart (d ++ chunks.flatten)).map sha256).flatten,
       restPart (d ++ chunks.flatten)⟩ := by
  intro chunks
  induction chunks with
  | nil => intro d; simp
  | cons c cs ih =>
    intro d
    have hst : hUpdate ⟨((fullPart d).map sha256).flatten, restPart d⟩ c =
        ⟨((fullPart (d ++ c)).map sha256).flatten, restPart (d ++ c)⟩ := by
      obtain ⟨hf, hr⟩ := fullPart_restPart_append d c
      simp only [hUpdate, flushBlocks_spec, hf, hr]
      simp
    rw [List.foldl_cons, hst, ih (d ++ c)]
    simp [List.flatten_cons, List.append_assoc]

/-- The streaming hasher computes the spec's closed block formula of the
flattened stream, for every I/O chunking. -/
theorem dropboxHashChunks_eq_spec (chunks : List (List Nat)) :
    dropboxHashChunks chunks = dropboxSpecHash chunks.flatten := by
  have hneg : ¬BLOCK_SIZE ≤ (([] : List Nat)).length := by decide
  have h0 : hasherInit =
      (⟨((fullPart ([] : List Nat)).map sha256).flatten, restPart []⟩ :
        DropboxContentHasher) := by
    rw [fullPart_neg hneg, restPart_neg hneg]
    rfl
  rw [dropboxHashChunks, h0, foldl_hUpdate_state chunks []]
  rw [dropboxSpecHash, blocksOf_decomp]
  simp only [List.nil_append, hexdigest]
  by_cases hr : restPart chunks.flatten = []
  · simp [hr]
  · simp [hr]

/-- C3: the content hash of a byte stream is the hex SHA-256 of the
concatenated raw SHA-256 digests of its in-order 4 MiB blocks (final
block possibly shorter); any two I/O chunk decompositions of the same
byte stream fed to the hasher give the same digest, and `dropbox_hash`
(the 1024-byte read loop of src/sync.py) computes exactly the block
formula. -/
theorem dropbox_hash_matches_spec_and_chunking :
    (∀ chunks : List (List Nat),
      dropboxHashChunks chunks =
        toHex (sha256 (((blocksOf chunks.flatten).map sha256).flatten))) ∧
    (∀ c1 c2 : List (List Nat), c1.flatten = c2.flatten →
      dropboxHashChunks c1 = dropboxHashChunks c2) ∧
    (∀ data : List Nat,
      dropbox_hash data = toHex (sha256 (((blocksOf data).map sha256).flatten))) := by
  refine ⟨?_, ?_, ?_⟩
  · intro chunks
    rw [dropboxHashChunks_eq_spec chunks, dropboxSpecHash]
  · intro c1 c2 h
    rw [dropboxHashChunks_eq_spec c1, dropboxHashChunks_eq_spec c2, h]
  · intro data
    rw [dropbox_hash, dropboxHashChunks_eq_spec, chunksOfPos_flatten, dropboxSpecHash]

/-- C3 witness: two different chunkings of the bytes `[1, 2, 3]` hash
identically. -/
theorem dropbox_hash_matches_spec_and_chunking_witness :
    ([[1], [2, 3]] : List (List Nat)).flatten = ([[1, 2], [3]] : List (List Nat)).flatten ∧
    dropboxHashChunks [[1], [2, 3]] = dropboxHashChunks [[1, 2], [3]] :=
  ⟨by decide,
   dropbox_hash_matches_spec_and_chunking.2.1 [[1], [2, 3]] [[1, 2], [3]] (by decide)⟩

/-! ## Path-normalization lemmas -/

theorem squeezeSlashes_cons_of_ne {c : Char} (hc : (c == '/') = false) (u : Str) :
    squeezeSlashes (c :: u) = c :: squeezeSlashes u := by
  cases u with
  | nil => rfl
  | cons b r => simp [squeezeSlashes, hc]

theorem squeezeSlashes_dd (r : Str) :
    squeezeSlashes ('/' :: '/' :: r) = squeezeSlashes ('/' :: r) := by
  simp [squeezeSlashes]

/-- A string with no double slash is already squeezed. -/
theorem squeezeSlashes_of_not_hasDD : ∀ s : Str, hasDD s = false → squeezeSlashes s = s := by
  intro s
  induction s with
  | nil => intro _; rfl
  | cons c1 t ih =>
    intro h
    cases t with
    | nil => rfl
    | cons c2 r =>
      simp only [hasDD, Bool.or_eq_false_iff] at h
      obtain ⟨h1, h2⟩ := h
      simp [squeezeSlashes, h1, ih h2]

theorem replaceDD_length_le : ∀ s : Str, (replaceDD s).length ≤ s.length := by
  have main : ∀ (n : Nat) (s : Str), s.length ≤ n → (replaceDD s).length ≤ s.length := by
    intro n
    induction n with
    | zero =>
      intro s hs
      have : s = [] := List.eq_nil_of_length_eq_zero (Nat.le_zero.mp hs)
      subst this
      simp [replaceDD]
    | succ n ih =>
      intro s hs
      match s with
      | [] => simp [replaceDD]
      | [c] => simp [replaceDD]
      | c1 :: c2 :: r =>
        simp only [List.length_cons] at hs
        cases hdd : (c1 == '/' && c2 == '/') with
        | true =>
          have := ih r (by omega)
          simp only [replaceDD, hdd, if_pos]
          simp only [List.length_cons]
          omega
        | false =>
          have := ih (c2 :: r) (by simp; omega)
          simp only [replaceDD, hdd, Bool.false_eq_true, if_false]
          simp only [List.length_cons] at this ⊢
          omega
  intro s
  exact main s.length s (Nat.le_refl _)

theorem replaceDD_length_lt : ∀ s : Str, hasDD s = true → (replaceDD s).length < s.length := by
  have main : ∀ (n : Nat) (s : Str), s.length ≤ n → hasDD s = true →
      (replaceDD s).length < s.length := by
    intro n
    induction n with
    | zero =>
      intro s hs h
      have : s = [] := List.eq_nil_of_length_eq_zero (Nat.le_zero.mp hs)
      subst this
      simp [hasDD] at h
    | succ n ih =>
      intro s hs h
      match s with
      | [] => simp [hasDD] at h
      | [c] => simp [hasDD] at h
      | c1 :: c2 :: r =>
        simp only [List.length_cons] at hs
        cases hdd : (c1 == '/' && c2 == '/') with
        | true =>
          have := replaceDD_length_le r
          simp only [replaceDD, hdd, if_pos]
          simp only [List.length_cons]
          omega
        | false =>
          simp only [hasDD, hdd, Bool.false_or] at h
          have := ih (c2 :: r) (by simp; omega) h
          simp only [replaceDD, hdd, Bool.false_eq_true, if_false]
          simp only [List.length_cons] at this ⊢
          omega
  intro s h
  exact main s.length s (Nat.le_refl _) h

/-- One replacement pass does not change the squeezed form, with or
without a leading slash prepended. -/
theorem squeezeSlashes_replaceDD : ∀ s : Str,
    squeezeSlashes (replaceDD s) = squeezeSlashes s ∧
    squeezeSlashes ('/' :: replaceDD s) = squeezeSlashes ('/' :: s) := by
  have main : ∀ (n : Nat) (s : Str), s.length ≤ n →
      squeezeSlashes (replaceDD s) = squeezeSlashes s ∧
      squeezeSlashes ('/' :: replaceDD s) = squeezeSlashes ('/' :: s) := by
    intro n
    induction n with
    | zero =>
      intro s hs
      have : s = [] := List.eq_nil_of_length_eq_zero (Nat.le_zero.mp hs)
      subst this
      exact ⟨rfl, rfl⟩
    | succ n ih =>
      intro s hs
      match s with
      | [] => exact ⟨rfl, rfl⟩
      | [c] => exact ⟨rfl, rfl⟩
      | c1 :: c2 :: r =>
        simp only [List.length_cons] at hs
        have hlen2 : (c2 :: r).length ≤ n := by simp; omega
        cases hdd : (c1 == '/' && c2 == '/') with
        | true =>
          have hc1 : c1 = '/' := by
            have := (Bool.and_eq_true _ _).mp hdd
            exact eq_of_beq this.1
          have hc2 : c2 = '/' := by
            have := (Bool.and_eq_true _ _).mp hdd
            exact eq_of_beq this.2
          subst hc1
          subst hc2
          have hlenr : r.length ≤ n := by omega
          obtain ⟨_, ihQ⟩ := ih r hlenr
          constructor
          · simp only [replaceDD, hdd, if_pos]
            rw [ihQ, squeezeSlashes_dd]
          · simp only [replaceDD, hdd, if_pos]
            rw [squeezeSlashes_dd, squeezeSlashes_dd, ihQ, squeezeSlashes_dd]
        | false =>
          obtain ⟨ihP, ihQ⟩ := ih (c2 :: r) hlen2
          by_cases hc1 : c1 = '/'
          · subst hc1
            have hc2 : (c2 == '/') = false := by
              cases hce : (c2 == '/') with
              | true => rw [hce] at hdd; simp at hdd
              | false => rfl
            constructor
            · simp only [replaceDD, hdd, Bool.false_eq_true, if_false]
              exact ihQ
            · simp only [replaceDD, hdd, Bool.false_eq_true, if_false]
              rw [squeezeSlashes_dd, squeezeSlashes_dd]
              exact ihQ
          · have hb1 : (c1 == '/') = false := by
              cases hce : (c1 == '/') with
              | true => exact absurd (eq_of_beq hce) hc1
              | false => rfl
            constructor
            · simp only [replaceDD, hdd, Bool.false_eq_true, if_false]
              rw [squeezeSlashes_cons_of_ne hb1, ihP, squeezeSlashes_cons_of_ne hb1]
            · simp only [replaceDD, hdd, Bool.false_eq_true, if_false]
              have hslash : (('/' : Char) == '/') = true := by decide
              have hcond : (('/' : Char) == '/' && c1 == '/') = false := by
                rw [hslash, hb1]
                rfl
              simp only [squeezeSlashes, hcond, Bool.false_eq_true, if_false]
              rw [squeezeSlashes_cons_of_ne hb1, ihP]
              simp [hdd]
  intro s
  exact main s.length s (Nat.le_refl _)

/-- The collapse loop reaches the squeezed fixpoint within `s.length`
passes. -/
theorem collapseFuel_eq_squeeze : ∀ (n : Nat) (s : Str), s.length ≤ n →
    collapseFuel n s = squeezeSlashes s := by
  intro n
  induction n with
  | zero =>
    intro s hs
    have : s = [] := List.eq_nil_of_length_eq_zero (Nat.le_zero.mp hs)
    subst this
    rfl
  | succ n ih =>
    intro s hs
    cases hdd : hasDD s with
    | true =>
      have hlt := replaceDD_length_lt s hdd
      simp only [collapseFuel, hdd, if_pos]
      rw [ih (replaceDD s) (by omega), (squeezeSlashes_replaceDD s).1]
    | false =>
      simp only [collapseFuel, hdd, Bool.false_eq_true, if_false]
      exact (squeezeSlashes_of_not_hasDD s hdd).symm

theorem collapseSlashes_eq_squeeze (s : Str) : collapseSlashes s = squeezeSlashes s :=
  collapseFuel_eq_squeeze s.length s (Nat.le_refl _)

theorem squeezeSlashes_ne_nil : ∀ s : Str, s ≠ [] → squeezeSlashes s ≠ [] := by
  have main : ∀ (n : Nat) (s : Str), s.length ≤ n → s ≠ [] → squeezeSlashes s ≠ [] := by
    intro n
    induction n with
    | zero =>
      intro s hs hne
      exact absurd (List.eq_nil_of_length_eq_zero (Nat.le_zero.mp hs)) hne
    | succ n ih =>
      intro s hs hne
      match s with
      | [c] => simp [squeezeSlashes]
      | c1 :: c2 :: r =>
        simp only [List.length_cons] at hs
        cases hdd : (c1 == '/' && c2 == '/') with
        | true =>
          simp only [squeezeSlashes, hdd, if_pos]
          exact ih (c2 :: r) (by simp; omega) (by simp)
        | false =>
          simp only [squeezeSlashes, hdd, Bool.false_eq_true, if_false]
          simp
  intro s hne
  exact main s.length s (Nat.le_refl _) hne

theorem getLast?_append_right (l₁ l₂ : List α) (h : l₂ ≠ []) :
    (l₁ ++ l₂).getLast? = l₂.getLast? := by
  obtain ⟨y, hy⟩ := Option.isSome_iff_exists.mp (List.getLast?_isSome.mpr h)
  rw [List.getLast?_append, hy]
  rfl

/-- Squeezing preserves a non-slash last character. -/
theorem squeezeSlashes_getLast? : ∀ (s : Str) (c : Char), s.getLast? = some c →
    (c == '/') = false → (squeezeSlashes s).getLast? = some c := by
  have main : ∀ (n : Nat) (s : Str) (c : Char), s.length ≤ n → s.getLast? = some c →
      (c == '/') = false → (squeezeSlashes s).getLast? = some c := by
    intro n
    induction n with
    | zero =>
      intro s c hs hl hc
      have : s = [] := List.eq_nil_of_length_eq_zero (Nat.le_zero.mp hs)
      subst this
      simp at hl
    | succ n ih =>
      intro s c hs hl hc
      match s with
      | [] => simp at hl
      | [a] =>
        simp only [List.getLast?_singleton, Option.some.injEq] at hl
        subst hl
        simp [squeezeSlashes]
      | a :: b :: r =>
        simp only [List.length_cons] at hs
        rw [List.getLast?_cons_cons] at hl
        have hlen : (b :: r).length ≤ n := by simp; omega
        have hrec := ih (b :: r) c hlen hl hc
        cases hdd : (a == '/' && b == '/') with
        | true =>
          simp only [squeezeSlashes, hdd, if_pos]
          exact hrec
        | false =>
          simp only [squeezeSlashes, hdd, Bool.false_eq_true, if_false]
          have hne : squeezeSlashes (b :: r) ≠ [] := squeezeSlashes_ne_nil _ (by simp)
          rw [← List.singleton_append, getLast?_append_right _ _ hne]
          exact hrec
  intro s c hl hc
  exact main s.length s c (Nat.le_refl _) hl hc

/-- Stripping trailing slashes is a no-op on a string whose last
character is not a slash. -/
theorem rstripSlash_eq_self (s : Str) (c : Char) (hl : s.getLast? = some c)
    (hc : (c == '/') = false) : rstripSlash s = s := by
  have hrev : s.reverse.head? = some c := by
    rw [List.head?_reverse]
    exact hl
  obtain ⟨ys, hys⟩ := List.head?_eq_some_iff.mp hrev
  rw [rstripSlash, hys, List.dropWhile_cons]
  simp only [hc, Bool.false_eq_true, if_false]
  rw [← hys, List.reverse_reverse]

/-- C8 counterexample: with an empty subdirectory and empty name, the
upload (and download) path keeps its trailing separator, so it is not
produced by the claimed normalization (which strips it, as the listing
path does): the three constructions do not share one normalization on
all inputs. -/
theorem upload_path_keeps_trailing_separator :
    upload_path '/' ['d'] [] [] = ['/', 'd', '/'] ∧
    download_path '/' ['d'] [] [] = ['/', 'd', '/'] ∧
    list_path '/' ['d'] [] = ['/', 'd'] ∧
    specNormalizePath ('/' :: ['d'] ++ '/' :: replaceSep '/' [] ++ '/' :: ([] : Str)) =
      ['/', 'd'] ∧
    upload_path '/' ['d'] [] [] ≠
      specNormalizePath ('/' :: ['d'] ++ '/' :: replaceSep '/' [] ++ '/' :: ([] : Str)) := by
  refine ⟨by decide, by decide, by decide, by decide, by decide⟩

/-- C8 (amended): the listing path is exactly the spec normalization
(separator replacement in the subdirectory, run collapsing, trailing
strip) of the formatted path; the download and upload constructions are
identical and apply the same replacement and collapsing but no trailing
strip; for every entry name that is non-empty and does not end in a
separator, the upload path already has no trailing separator, so it too
equals the spec normalization and all three constructions agree. -/
theorem path_normalization_amended :
    (∀ (sep : Char) (d s : Str),
      list_path sep d s = specNormalizePath ('/' :: d ++ '/' :: replaceSep sep s)) ∧
    (∀ (sep : Char) (d s nm : Str), download_path sep d s nm = upload_path sep d s nm) ∧
    (∀ (sep : Char) (d s nm : Str),
      upload_path sep d s nm =
        squeezeSlashes ('/' :: d ++ '/' :: replaceSep sep s ++ '/' :: nm)) ∧
    (∀ (sep : Char) (d s nm : Str), nm ≠ [] → nm.getLast? ≠ some '/' →
      upload_path sep d s nm =
        specNormalizePath ('/' :: d ++ '/' :: replaceSep sep s ++ '/' :: nm)) := by
  refine ⟨?_, ?_, ?_, ?_⟩
  · intro sep d s
    rw [list_path, collapseSlashes_eq_squeeze, specNormalizePath]
  · intro sep d s nm
    rfl
  · intro sep d s nm
    rw [upload_path, collapseSlashes_eq_squeeze]
  · intro sep d s nm hn hl
    obtain ⟨x, hx⟩ := Option.isSome_iff_exists.mp (List.getLast?_isSome.mpr hn)
    have hxs : (x == '/') = false := by
      cases hbe : (x == '/') with
      | true =>
        have hxe : x = '/' := eq_of_beq hbe
        subst hxe
        exact absurd hx hl
      | false => rfl
    have hraweq : ('/' :: d ++ '/' :: replaceSep sep s ++ '/' :: nm) =
        (('/' :: d ++ '/' :: replaceSep sep s ++ ['/']) ++ nm) := by
      simp
    have hrawlast : ('/' :: d ++ '/' :: replaceSep sep s ++ '/' :: nm).getLast? = some x := by
      rw [hraweq, getLast?_append_right _ _ hn, hx]
    have hsq := squeezeSlashes_getLast? _ x hrawlast hxs
    rw [upload_path, collapseSlashes_eq_squeeze, specNormalizePath,
      rstripSlash_eq_self _ x hsq hxs]

/-- C8 amended witness: for name `f` the upload path needs no trailing
strip and equals the spec normalization. -/
theorem path_normalization_amended_witness :
    (['f'] : Str) ≠ [] ∧ (['f'] : Str).getLast? ≠ some '/' ∧
    upload_path '/' ['d'] ['s'] ['f'] =
      specNormalizePath ('/' :: ['d'] ++ '/' :: replaceSep '/' ['s'] ++ '/' :: ['f']) :=
  ⟨by decide, by decide,
   path_normalization_amended.2.2.2 '/' ['d'] ['s'] ['f'] (by decide) (by decide)⟩
